import Mathlib

/-!
Verification of the PCM→MIDI encoder (`pythonversion.py`).

The Python source is shallowly embedded below:

* `MIDIEvent` / `MIDIEvent.as_bytes`   — the event model (`MIDIEvent.as_bytes`)
* `get_variable_length_number` / `to_variable_length_bytes` — the VLQ codec
* `MidiWriterRaw` with `push_event` and `save` — the writer and serializer
* `amp2vel`, `gen_midi_from_pcm`       — the encoder

Machine integers are modelled as `Nat`/`Int`; a raised Python exception is
modelled as `Except.error` carrying the exception message (and, for the
encoder, the state of the mutated writer object at the moment of the raise,
since the caller's writer retains those mutations).  Loops that are not
structurally recursive in the source are given an explicit fuel argument
that provably suffices, so every definition evaluates by kernel reduction.
-/

/-- Byte list produced by `MIDIEvent.as_bytes` in the source.  Field values
are the raw Python integers (all call sites pass non-negative values, so we
use `Nat`); the encoder masks them exactly as the source does. -/
inductive MIDIEvent where
  | SetTempo (tempo : Nat)
  | ProgramChange (channel program : Nat)
  | ControlChange (channel cc value : Nat)
  | NoteOn (channel note velocity : Nat)
  | NoteOff (channel note velocity : Nat)
  | EndOfTrack
deriving DecidableEq, Repr

/-- Translation of `MIDIEvent.as_bytes` (source lines 12–31).  The source's
final `else: return []` branch is unreachable for events built by the six
constructors, which are the only ones the program creates. -/
def MIDIEvent.as_bytes : MIDIEvent → List Nat
  | .SetTempo tempo =>
      [0xFF, 0x51, 0x03, (tempo >>> 16) &&& 0xFF, (tempo >>> 8) &&& 0xFF, tempo &&& 0xFF]
  | .ProgramChange channel program =>
      [0xC0 ||| (channel &&& 0x0F), program &&& 0x7F]
  | .ControlChange channel cc value =>
      [0xB0 ||| (channel &&& 0x0F), cc &&& 0x7F, value &&& 0x7F]
  | .NoteOn channel note velocity =>
      [0x90 ||| (channel &&& 0x0F), note &&& 0x7F, velocity &&& 0x7F]
  | .NoteOff channel note velocity =>
      [0x80 ||| (channel &&& 0x0F), note &&& 0x7F, velocity &&& 0x7F]
  | .EndOfTrack => [0xFF, 0x2F, 0x00]

/-- True exactly for the two note event kinds (`NoteOn`/`NoteOff`). -/
def MIDIEvent.isNote : MIDIEvent → Bool
  | .NoteOn _ _ _ => true
  | .NoteOff _ _ _ => true
  | _ => false

/-- True exactly for `EndOfTrack`. -/
def MIDIEvent.isEndOfTrack : MIDIEvent → Bool
  | .EndOfTrack => true
  | _ => false

/-- Loop body of `get_variable_length_number` (source lines 67–75): shift the
accumulator by 7, or in the low 7 bits of the next byte, stop when the byte's
high bit is clear.  `bytes_list.pop(0)` on an exhausted list raises
`IndexError` in Python; that is modelled by `none`. -/
def get_variable_length_number_loop : List Nat → Nat → Option Nat
  | [], _ => none
  | x :: rest, n =>
      let n := (n <<< 7) ||| (x &&& 0x7F)
      if x &&& 0x80 = 0 then some n else get_variable_length_number_loop rest n

/-- Translation of `get_variable_length_number` (source lines 67–75). -/
def get_variable_length_number (bytes_list : List Nat) : Option Nat :=
  get_variable_length_number_loop bytes_list 0

/-- The `while working_number > 0` loop of `to_variable_length_bytes`
(source lines 81–87) after its first pass: every further byte gets the
continuation bit `0x80`.  The source loop is not structurally recursive, so
it carries a fuel argument; `fuel ≥ working_number` always suffices because
the working number shrinks by a factor of 128 each pass. -/
def to_variable_length_bytes_loop : Nat → Nat → List Nat → List Nat
  | 0, _, output => output
  | fuel + 1, working, output =>
      if working > 0 then
        to_variable_length_bytes_loop fuel (working >>> 7) (output ++ [(working &&& 0x7F) ||| 0x80])
      else output

/-- Translation of `to_variable_length_bytes` (source lines 77–89): the first
pass pushes `number & 0x7F` without the continuation bit, the remaining
passes push `(working >> 7 …) & 0x7F | 0x80`, and the byte list is reversed
at the end. -/
def to_variable_length_bytes (number : Nat) : List Nat :=
  (to_variable_length_bytes_loop number (number >>> 7) [number &&& 0x7F]).reverse

/-- Writer state (`MidiWriterRaw.__init__`, source lines 91–94): a ppqn value
and a list of tracks, each track an accumulated byte list. -/
structure MidiWriterRaw where
  ppqn : Nat
  tracks : List (List Nat)
deriving DecidableEq, Repr

/-- `MidiWriterRaw()` constructs ppqn 480 and no tracks. -/
def MidiWriterRaw.init : MidiWriterRaw := { ppqn := 480, tracks := [] }

/-- Translation of `MidiWriterRaw.set_ppqn` (source lines 96–97). -/
def MidiWriterRaw.set_ppqn (w : MidiWriterRaw) (ppqn : Nat) : MidiWriterRaw :=
  { w with ppqn := ppqn }

/-- Translation of `MidiWriterRaw.push_event` (source lines 103–110): if
`track + 1 >= len(tracks)` the source appends empty tracks for the indices
`len(tracks), …, track` (here: `List.replicate (track + 1 - length) []`,
which is that exact number of new empty tracks), then extends track `track`
with `VLQ(wait) ++ event.as_bytes()`. -/
def MidiWriterRaw.push_event (w : MidiWriterRaw) (track wait : Nat) (event : MIDIEvent) :
    MidiWriterRaw :=
  let tracks :=
    if track + 1 ≥ w.tracks.length then
      w.tracks ++ List.replicate (track + 1 - w.tracks.length) []
    else w.tracks
  { w with
    tracks := tracks.set track
      ((tracks.getD track []) ++ (to_variable_length_bytes wait ++ event.as_bytes)) }

/-- The four length-field bytes the source writes for a track body of
`length` bytes (source lines 124–130). -/
def be32 (length : Nat) : List Nat :=
  [(length >>> 24) &&& 0xFF, (length >>> 16) &&& 0xFF, (length >>> 8) &&& 0xFF, length &&& 0xFF]

/-- One serialized track chunk (source lines 121–132): the magic `"MTrk"`,
the four length bytes, then the body. -/
def trackChunk (track : List Nat) : List Nat :=
  [0x4D, 0x54, 0x72, 0x6B] ++ be32 track.length ++ track

/-- The header chunk bytes built in `MidiWriterRaw.save` (source lines
114–119): `"MThd"`, length 6, format 1, `bytes([0, len(tracks)])`, and the
two masked ppqn bytes. -/
def saveHeader (w : MidiWriterRaw) : List Nat :=
  [0x4D, 0x54, 0x68, 0x64] ++ [0x00, 0x00, 0x00, 0x06] ++ [0x00, 0x01]
    ++ [0, w.tracks.length] ++ [(w.ppqn >>> 8) &&& 0xFF, w.ppqn &&& 0xFF]

/-- Translation of `MidiWriterRaw.save` (source lines 112–133), returning the
byte stream written to the file.  Python's `bytes([0, len(self.tracks)])`
raises `ValueError` when the track count exceeds 255, and
`bytearray.extend` raises `ValueError` on any track byte outside 0–255;
both raises are modelled as `Except.error "ValueError"`. -/
def MidiWriterRaw.save (w : MidiWriterRaw) : Except String (List Nat) :=
  if w.tracks.length > 255 then .error "ValueError"
  else if w.tracks.any (fun t => t.any (fun b => b > 255)) then .error "ValueError"
  else .ok (saveHeader w ++ (w.tracks.map trackChunk).flatten)

/-- Decimal value of a big-endian byte list (how a conformant MIDI reader
interprets the length field written by `save`). -/
def fieldValue (bytes : List Nat) : Nat :=
  bytes.foldl (fun a b => a * 256 + b) 0

/-- Integer square root by the digit-by-digit method, with a fuel argument
(`fuel ≥ n` suffices: the recursion divides `n` by 4 each level).  Satisfies
`(intSqrt n) ^ 2 ≤ n < (intSqrt n + 1) ^ 2` (proved below). -/
def intSqrtAux : Nat → Nat → Nat
  | 0, _ => 0
  | fuel + 1, n =>
      if n = 0 then 0
      else
        let r := intSqrtAux fuel (n / 4)
        if (2 * r + 1) ^ 2 ≤ n then 2 * r + 1 else 2 * r

/-- Integer square root: `intSqrt n = ⌊√n⌋`. -/
def intSqrt (n : Nat) : Nat := intSqrtAux n n

/-- Translation of `amp2vel` (source lines 155–161).

The source computes `result = math.sqrt(abs(point) * (127.0*127.0/32768.0))`
and returns `int(math.floor(result + 0.5))`.  Over the reals this is
`⌊√(16129·x/32768) + 1/2⌋` with `x = |point|`, which equals
`(⌊√(16129·x/8192)⌋ + 1) / 2` (since `⌊√q + 1/2⌋ = ⌊(√(4q) + 1)/2⌋` and
`⌊√m⌋ = ⌊√⌊m⌋⌋`).  The double-precision computation in the source is exact
for the products involved (`127.0*127.0/32768.0` and `|point|` times it are
exactly representable for any 64-bit-class sample), `math.sqrt` is correctly
rounded, and the true square root is never within the rounding error of a
half-integer unless it is exactly one (which both computations treat alike),
so the integer formula below agrees with the float code on every integer
sample.  The lane is `0` for non-negative samples, `1` for negative, plus
`2` on the right channel. -/
def amp2vel (point : Int) (is_right_channel : Bool) : Nat × Nat :=
  let vel := (intSqrt (16129 * point.natAbs / 8192) + 1) / 2
  let u := (if point ≥ 0 then 0 else 1) + (if is_right_channel then 2 else 0)
  (vel, u)

/-- Encoder state while `gen_midi_from_pcm` runs: the writer being mutated,
the four per-lane delta-time accumulators, and the running note count.
`pushes` is a ghost log recording every `push_event (track, wait, event)`
call in order; it adds no behavior (the writer field is updated exactly as
the source does) but lets theorems speak about individual emitted events. -/
structure EncSt where
  smf : MidiWriterRaw
  pushes : List (Nat × Nat × MIDIEvent)
  deltatimes : List Nat
  note_count : Nat
deriving DecidableEq, Repr

/-- A `smf.push_event(track, wait, event)` call: update the writer and log
the call. -/
def EncSt.push (st : EncSt) (track wait : Nat) (event : MIDIEvent) : EncSt :=
  { st with
    smf := st.smf.push_event track wait event
    pushes := st.pushes ++ [(track, wait, event)] }

/-- Body of the per-sample loop (source lines 170–183) for one sample value
`point`: compute `(vel, u)`, push the NoteOn/NoteOff pair on lane `u` when
`vel ≠ 0` (deltas `deltatimes[u]` and `1`) and count the note, increment all
four accumulators, reset accumulator `u` when the lane fired, and finally
run the progress guard `i % (total_samples // 20) == 0` — in Python `x % 0`
raises `ZeroDivisionError`, so the guard raises exactly when
`total_samples // 20 == 0` (its other effect is only a progress character on
stdout, which is not modelled).  An error carries the state at the raise. -/
def sampleStep (total : Nat) (is_right_channel : Bool) (st : EncSt) (point : Int) :
    Except (String × EncSt) EncSt :=
  let vu := amp2vel point is_right_channel
  let vel := vu.1
  let u := vu.2
  let st :=
    if vel ≠ 0 then
      let d1 := st.deltatimes.getD u 0
      let d2 := 1
      let st := { st with note_count := st.note_count + 1 }
      (st.push u d1 (.NoteOn u 60 vel)).push u d2 (.NoteOff u 60 vel)
    else st
  let st := { st with deltatimes := st.deltatimes.map (· + 1) }
  let st := if vel ≠ 0 then { st with deltatimes := st.deltatimes.set u 0 } else st
  if total / 20 = 0 then .error ("ZeroDivisionError", st) else .ok st

/-- The inner loop `for i in range(total_samples)` (source lines 169–183) for
one channel.  `src[ch_i][i]` on an out-of-range index raises `IndexError`. -/
def runChannel (total : Nat) (is_right_channel : Bool) (samples : List Int) (st : EncSt) :
    Except (String × EncSt) EncSt :=
  (List.range total).foldlM
    (fun st i =>
      match samples[i]? with
      | none => .error ("IndexError", st)
      | some point => sampleStep total is_right_channel st point)
    st

/-- The outer loop `for ch_i in range(len(src))` (source lines 167–183):
each channel restarts `deltatimes = [0, 0, 0, 0]` and walks
`range(total_samples)` over `src[ch_i]`, with `ch_i == 1` as the
right-channel flag. -/
def channelsLoop (src : List (List Int)) (total : Nat) (st : EncSt) :
    Except (String × EncSt) EncSt :=
  (List.range src.length).foldlM
    (fun st ch_i =>
      runChannel total (ch_i == 1) (src.getD ch_i []) { st with deltatimes := [0, 0, 0, 0] })
    st

/-- Translation of `gen_midi_from_pcm` (source lines 135–187).  `int(fs/100)`
is `fs / 100` on naturals and `int(60000000/6000)` is `10000`.  The channel
count is checked after the SetTempo push (`raise Exception("not mono or
stereo")`); `total_samples = len(src[0])`; after both channel loops an
EndOfTrack is pushed at delta 0 on all four lanes and the note count is
returned. -/
def gen_midi_from_pcm (src : List (List Int)) (smf : MidiWriterRaw) (fs : Nat) :
    Except (String × EncSt) (EncSt × Nat) :=
  let st : EncSt :=
    { smf := smf.set_ppqn (fs / 100), pushes := [], deltatimes := [0, 0, 0, 0], note_count := 0 }
  let st := st.push 0 0 (.SetTempo (60000000 / 6000))
  if src.length = 1 ∨ src.length = 2 then
    let is_stereo := src.length == 2
    let st := (st.push 0 0 (.ProgramChange 0 0)).push 1 0 (.ProgramChange 1 74)
    let st :=
      if is_stereo then (st.push 2 0 (.ProgramChange 2 0)).push 3 0 (.ProgramChange 3 74)
      else st
    let st := (st.push 0 0 (.ControlChange 0 10 1)).push 1 0 (.ControlChange 1 10 1)
    let st := (st.push 2 0 (.ControlChange 2 10 127)).push 3 0 (.ControlChange 3 10 127)
    let total_samples := (src.getD 0 []).length
    match channelsLoop src total_samples st with
    | .error e => .error e
    | .ok st =>
        let st := (((st.push 0 0 .EndOfTrack).push 1 0 .EndOfTrack).push 2 0
          .EndOfTrack).push 3 0 .EndOfTrack
        .ok (st, st.note_count)
  else .error ("not mono or stereo", st)

/-- The success projection of an encoder result. -/
def encOk (r : Except (String × EncSt) (EncSt × Nat)) : Option (EncSt × Nat) :=
  match r with
  | .ok v => some v
  | .error _ => none

/-- The exception-message projection of an encoder result. -/
def encErr (r : Except (String × EncSt) (EncSt × Nat)) : Option String :=
  match r with
  | .ok _ => none
  | .error (msg, _) => some msg

/-- The writer/ghost-log state carried by a raised encoder exception. -/
def encErrSt (r : Except (String × EncSt) (EncSt × Nat)) : Option EncSt :=
  match r with
  | .ok _ => none
  | .error (_, st) => some st

/-! ### Supporting arithmetic and bit lemmas -/

theorem intSqrtAux_bounds :
    ∀ fuel n, n ≤ fuel → (intSqrtAux fuel n) ^ 2 ≤ n ∧ n < (intSqrtAux fuel n + 1) ^ 2 := by
  intro fuel
  induction fuel with
  | zero =>
    intro n hn
    have h0 : n = 0 := Nat.le_zero.mp hn
    subst h0
    simp [intSqrtAux]
  | succ f ih =>
    intro n hn
    by_cases h0 : n = 0
    · subst h0; simp [intSqrtAux]
    · have hdiv : n / 4 ≤ f := by
        have := Nat.div_lt_self (Nat.pos_of_ne_zero h0) (by norm_num : 1 < 4)
        omega
      obtain ⟨hlo, hhi⟩ := ih (n / 4) hdiv
      simp only [intSqrtAux, h0, if_false]
      set r := intSqrtAux f (n / 4) with hr
      have hmod := Nat.div_add_mod n 4
      have hm4 : n % 4 < 4 := Nat.mod_lt _ (by norm_num)
      by_cases hc : (2 * r + 1) ^ 2 ≤ n
      · rw [if_pos hc]
        refine ⟨hc, ?_⟩
        have he : (2 * r + 1 + 1) ^ 2 = 4 * (r + 1) ^ 2 := by ring
        rw [he]
        generalize hs : (r + 1) ^ 2 = s at hhi
        omega
      · rw [if_neg hc]
        constructor
        · have he : (2 * r) ^ 2 = 4 * r ^ 2 := by ring
          rw [he]
          generalize ht : r ^ 2 = t at hlo
          omega
        · omega

theorem intSqrt_bounds (n : Nat) : (intSqrt n) ^ 2 ≤ n ∧ n < (intSqrt n + 1) ^ 2 :=
  intSqrtAux_bounds n n (Nat.le_refl n)

theorem and_127_eq_mod (x : Nat) : x &&& 127 = x % 128 := by
  have h := Nat.and_pow_two_sub_one_eq_mod x 7
  norm_num at h
  exact h

theorem and_255_eq_mod (x : Nat) : x &&& 255 = x % 256 := by
  have h := Nat.and_pow_two_sub_one_eq_mod x 8
  norm_num at h
  exact h

theorem shiftLeft_or_eq_add {b : Nat} (a : Nat) (h : b < 128) :
    (a <<< 7) ||| b = a * 128 + b := by
  have h7 : (128 : Nat) = 2 ^ 7 := by norm_num
  rw [Nat.shiftLeft_eq, h7]
  apply Nat.eq_of_testBit_eq
  intro i
  rw [Nat.testBit_or]
  rw [show a * 2 ^ 7 + b = 2 ^ 7 * a + b by ring,
    Nat.testBit_mul_pow_two_add a (show b < 2 ^ 7 by omega) i,
    show a * 2 ^ 7 = 2 ^ 7 * a by ring, Nat.testBit_mul_pow_two]
  by_cases hik : i < 7
  · simp [hik, Nat.not_le_of_lt hik]
  · have hb : b.testBit i = false := by
      refine Nat.testBit_lt_two_pow (lt_of_lt_of_le (show b < 2 ^ 7 by omega) ?_)
      exact Nat.pow_le_pow_right (by norm_num) (Nat.le_of_not_lt hik)
    simp [hik, hb, Nat.le_of_not_lt hik]

theorem or_128_eq_add {b : Nat} (h : b < 128) : b ||| 128 = b + 128 := by
  have h1 := shiftLeft_or_eq_add 1 h
  rw [Nat.lor_comm]
  simpa [Nat.add_comm] using h1

theorem and_128_ne_zero {x : Nat} (h1 : 128 ≤ x) (h2 : x < 256) : x &&& 128 ≠ 0 := by
  have hbit : x.testBit 7 = true := by
    rw [show x = 2 ^ 7 * 1 + (x - 128) by omega,
      Nat.testBit_mul_pow_two_add 1 (show x - 128 < 2 ^ 7 by omega) 7]
    simp
  intro hc
  have h := Nat.testBit_and x 128 7
  rw [hc, Nat.zero_testBit, hbit, show (128 : Nat) = 2 ^ 7 by norm_num,
    Nat.testBit_two_pow_self] at h
  simp at h

theorem and_128_eq_zero {x : Nat} (h : x < 128) : x &&& 128 = 0 := by
  apply Nat.eq_of_testBit_eq
  intro i
  rw [Nat.testBit_and, Nat.zero_testBit]
  by_cases hi : i = 7
  · subst hi
    simp [Nat.testBit_lt_two_pow (show x < 2 ^ 7 by omega)]
  · rw [show (128 : Nat) = 2 ^ 7 by norm_num,
      Nat.testBit_two_pow_of_ne (show 7 ≠ i from fun hh => hi hh.symm)]
    simp

/-! ### VLQ codec: characterization and round-trip lemmas -/

/-- The little-endian list of continuation-flagged 7-bit groups of `w`, as
pushed by the `while working_number > 0` loop. -/
def contDigits (w : Nat) : List Nat :=
  if h : w = 0 then []
  else ((w &&& 0x7F) ||| 0x80) :: contDigits (w >>> 7)
termination_by w
decreasing_by
  rw [Nat.shiftRight_eq_div_pow]
  exact Nat.div_lt_self (Nat.pos_of_ne_zero h) (by norm_num)

theorem contDigits_zero : contDigits 0 = [] := by
  rw [contDigits]
  simp

theorem contDigits_pos {w : Nat} (h : w ≠ 0) :
    contDigits w = (w % 128 + 128) :: contDigits (w / 128) := by
  rw [contDigits]
  rw [dif_neg h, and_127_eq_mod, or_128_eq_add (Nat.mod_lt _ (by norm_num)),
    Nat.shiftRight_eq_div_pow]

theorem to_variable_length_bytes_loop_eq :
    ∀ fuel w out, w ≤ fuel →
      to_variable_length_bytes_loop fuel w out = out ++ contDigits w := by
  intro fuel
  induction fuel with
  | zero =>
    intro w out hw
    have h0 : w = 0 := Nat.le_zero.mp hw
    subst h0
    simp [to_variable_length_bytes_loop, contDigits_zero]
  | succ f ih =>
    intro w out hw
    by_cases h0 : w = 0
    · subst h0
      simp [to_variable_length_bytes_loop, contDigits_zero]
    · have hpos : w > 0 := Nat.pos_of_ne_zero h0
      have hstep : w >>> 7 ≤ f := by
        rw [Nat.shiftRight_eq_div_pow]
        have := Nat.div_lt_self hpos (by norm_num : 1 < 2 ^ 7)
        omega
      simp only [to_variable_length_bytes_loop, hpos, if_true]
      rw [ih (w >>> 7) _ hstep, contDigits_pos h0]
      rw [and_127_eq_mod, or_128_eq_add (Nat.mod_lt _ (by norm_num)),
        Nat.shiftRight_eq_div_pow]
      rw [List.append_assoc]
      rfl

/-- `to_variable_length_bytes n` is the reversed continuation digits of the
high part followed by the plain low 7 bits. -/
theorem to_variable_length_bytes_eq (n : Nat) :
    to_variable_length_bytes n = (contDigits (n >>> 7)).reverse ++ [n &&& 0x7F] := by
  rw [to_variable_length_bytes, to_variable_length_bytes_loop_eq n (n >>> 7) _ ?h]
  case h =>
    rw [Nat.shiftRight_eq_div_pow]
    exact Nat.le_of_lt_succ (Nat.lt_succ_of_le (Nat.div_le_self n _))
  rw [List.reverse_append]
  rfl

theorem get_variable_length_number_loop_contDigits :
    ∀ w l a, get_variable_length_number_loop ((contDigits w).reverse ++ l) a =
      get_variable_length_number_loop l (a * 128 ^ (contDigits w).length + w) := by
  intro w
  induction w using Nat.strong_induction_on with
  | _ w ih =>
    intro l a
    by_cases h0 : w = 0
    · subst h0
      simp [contDigits_zero]
    · have hrec : w / 128 < w :=
        Nat.div_lt_self (Nat.pos_of_ne_zero h0) (by norm_num)
      rw [contDigits_pos h0, List.reverse_cons, List.append_assoc, ih (w / 128) hrec]
      have hb1 : (w % 128 + 128) &&& 128 ≠ 0 :=
        and_128_ne_zero (by omega) (by have := Nat.mod_lt w (show 0 < 128 by norm_num); omega)
      have hb2 : (w % 128 + 128) &&& 0x7F = w % 128 := by
        rw [and_127_eq_mod]
        omega
      simp only [List.singleton_append, get_variable_length_number_loop, hb1, if_neg,
        if_false, hb2]
      rw [shiftLeft_or_eq_add _ (Nat.mod_lt _ (by norm_num))]
      have harith :
          (a * 128 ^ (contDigits (w / 128)).length + w / 128) * 128 + w % 128 =
            a * 128 ^ ((w % 128 + 128) :: contDigits (w / 128)).length + w := by
        rw [List.length_cons, pow_succ]
        have := Nat.div_add_mod w 128
        ring_nf
        omega
      rw [harith]
      rfl

/-- One step of the decode loop on a byte with the continuation bit set. -/
theorem get_variable_length_number_loop_cont {x : Nat} (rest : List Nat) (a : Nat)
    (h : x &&& 128 ≠ 0) :
    get_variable_length_number_loop (x :: rest) a =
      get_variable_length_number_loop rest ((a <<< 7) ||| (x &&& 0x7F)) := by
  simp only [get_variable_length_number_loop, h, if_neg, if_false]

/-- One step of the decode loop on a byte with the continuation bit clear. -/
theorem get_variable_length_number_loop_term {x : Nat} (rest : List Nat) (a : Nat)
    (h : x &&& 128 = 0) :
    get_variable_length_number_loop (x :: rest) a = some ((a <<< 7) ||| (x &&& 0x7F)) := by
  simp only [get_variable_length_number_loop, h, if_pos]

/-- Decode after encode restores `n`, for every natural `n`. -/
theorem get_to_variable_length_bytes (n : Nat) :
    get_variable_length_number (to_variable_length_bytes n) = some n := by
  rw [get_variable_length_number, to_variable_length_bytes_eq,
    get_variable_length_number_loop_contDigits]
  have hlt : n &&& 0x7F < 128 := by
    rw [and_127_eq_mod]
    exact Nat.mod_lt _ (by norm_num)
  rw [get_variable_length_number_loop_term [] _ (and_128_eq_zero hlt)]
  rw [show n &&& 127 &&& 127 = n &&& 127 by rw [Nat.and_assoc]; norm_num]
  rw [shiftLeft_or_eq_add _ hlt, and_127_eq_mod, Nat.shiftRight_eq_div_pow]
  have := Nat.div_add_mod n 128
  norm_num
  omega

/-- All-continuation bytes: each byte is in `128..255`. -/
def contShape : List Nat → Bool
  | [] => true
  | x :: rest => decide (128 ≤ x ∧ x < 256) && contShape rest

/-- A valid-length VLQ byte sequence as the spec describes it: nonempty,
every byte but the last has the high bit set (and is a byte), and the last
byte has the high bit clear. -/
def vlqShape (b : List Nat) : Bool :=
  contShape b.dropLast &&
    (match b.getLast? with
     | some x => decide (x < 128)
     | none => false)

/-- A canonical (minimal-length) VLQ byte sequence: valid shape and no
redundant leading `0x80` byte. -/
def vlqCanonical (b : List Nat) : Bool :=
  vlqShape b && decide (b.head? ≠ some 128)

/-- The value encoded by a byte list read as big-endian 7-bit groups,
starting from accumulator `a`. -/
def vlqPayload (b : List Nat) (a : Nat) : Nat :=
  b.foldl (fun acc x => acc * 128 + x % 128) a

theorem contShape_append (l₁ l₂ : List Nat) :
    contShape (l₁ ++ l₂) = (contShape l₁ && contShape l₂) := by
  induction l₁ with
  | nil => simp [contShape]
  | cons x t ih => simp [contShape, ih, Bool.and_assoc]

theorem vlqPayload_ge_one : ∀ (l : List Nat) (a : Nat), 1 ≤ a → 1 ≤ vlqPayload l a := by
  intro l
  induction l with
  | nil => intro a ha; simpa [vlqPayload] using ha
  | cons x t ih =>
    intro a ha
    simp only [vlqPayload, List.foldl_cons]
    exact ih _ (by omega)

/-- On a validly shaped byte list the decode loop consumes everything and
returns the accumulated payload. -/
theorem get_variable_length_number_loop_shaped :
    ∀ b a, vlqShape b = true → get_variable_length_number_loop b a = some (vlqPayload b a) := by
  intro b
  induction b with
  | nil => intro a hsh; simp [vlqShape] at hsh
  | cons x rest ih =>
    intro a hsh
    cases rest with
    | nil =>
      simp only [vlqShape, List.dropLast_single, contShape, List.getLast?_singleton,
        Bool.true_and, decide_eq_true_eq] at hsh
      have hx : x &&& 0x7F = x := by
        rw [and_127_eq_mod]
        omega
      rw [get_variable_length_number_loop_term [] _ (and_128_eq_zero hsh), hx,
        shiftLeft_or_eq_add _ hsh]
      simp [vlqPayload, Nat.mod_eq_of_lt hsh]
    | cons y t =>
      have hd : (x :: y :: t).dropLast = x :: (y :: t).dropLast := rfl
      rw [vlqShape, hd, List.getLast?_cons_cons] at hsh
      simp only [contShape, Bool.and_eq_true, decide_eq_true_eq] at hsh
      obtain ⟨⟨hx, hct⟩, hlast⟩ := hsh
      have hshape' : vlqShape (y :: t) = true := by
        rw [vlqShape, hct]
        simpa using hlast
      have hb1 : x &&& 128 ≠ 0 := and_128_ne_zero hx.1 hx.2
      rw [get_variable_length_number_loop_cont (y :: t) a hb1]
      rw [and_127_eq_mod, shiftLeft_or_eq_add _ (Nat.mod_lt _ (by norm_num))]
      rw [ih _ hshape']
      rfl

/-- Reconstructing the continuation digits of a payload recovers the byte
list (reversed), provided the list is all-continuation bytes with no
redundant leading `0x80`. -/
theorem contDigits_vlqPayload :
    ∀ l : List Nat, contShape l = true → l.head? ≠ some 128 →
      contDigits (vlqPayload l 0) = l.reverse := by
  intro l
  induction l using List.reverseRecOn with
  | nil =>
    intro _ _
    simp [vlqPayload, contDigits_zero]
  | append_singleton l x ih =>
    intro hsh hhd
    rw [contShape_append] at hsh
    simp only [contShape, Bool.and_eq_true, Bool.and_true, decide_eq_true_eq] at hsh
    obtain ⟨hl, hx⟩ := hsh
    cases l with
    | nil =>
      have hx128 : x ≠ 128 := by
        intro hc
        exact hhd (by simp [hc])
      have hv : vlqPayload [x] 0 = x % 128 := by
        simp [vlqPayload]
      have hpos : x % 128 ≠ 0 := by omega
      rw [List.nil_append, hv, contDigits_pos hpos]
      have h1 : x % 128 % 128 = x % 128 := Nat.mod_mod_of_dvd _ (dvd_refl _)
      have h2 : x % 128 / 128 = 0 := Nat.div_eq_of_lt (Nat.mod_lt _ (by norm_num))
      rw [h1, h2, contDigits_zero]
      have : x % 128 + 128 = x := by omega
      rw [this]
      rfl
    | cons h t =>
      have hhd' : (h :: t).head? ≠ some 128 := by
        simpa using hhd
      have hh : 128 ≤ h ∧ h < 256 := by
        have hl' := hl
        simp only [contShape, Bool.and_eq_true, decide_eq_true_eq] at hl'
        exact hl'.1
      have hQ : 1 ≤ vlqPayload (h :: t) 0 := by
        have hh128 : h ≠ 128 := by
          intro hc
          exact hhd' (by simp [hc])
        simp only [vlqPayload, List.foldl_cons]
        apply vlqPayload_ge_one
        omega
      have hP : vlqPayload ((h :: t) ++ [x]) 0 =
          vlqPayload (h :: t) 0 * 128 + x % 128 := by
        simp [vlqPayload, List.foldl_append]
      set Q := vlqPayload (h :: t) 0 with hQdef
      have hPpos : Q * 128 + x % 128 ≠ 0 := by omega
      rw [hP, contDigits_pos hPpos]
      have hmod : (Q * 128 + x % 128) % 128 = x % 128 := by
        omega
      have hdivQ : (Q * 128 + x % 128) / 128 = Q := by
        omega
      rw [hmod, hdivQ, ih hl hhd']
      have hxeq : x % 128 + 128 = x := by omega
      rw [hxeq, List.reverse_append]
      rfl

/-- Encode after decode restores any canonical VLQ byte sequence. -/
theorem to_get_variable_length_number (b : List Nat) (hc : vlqCanonical b = true) :
    (get_variable_length_number b).map to_variable_length_bytes = some b := by
  rw [vlqCanonical, Bool.and_eq_true, decide_eq_true_eq] at hc
  obtain ⟨hsh, hhd⟩ := hc
  rw [get_variable_length_number, get_variable_length_number_loop_shaped b 0 hsh]
  rw [show Option.map to_variable_length_bytes (some (vlqPayload b 0)) =
    some (to_variable_length_bytes (vlqPayload b 0)) from rfl]
  rcases List.eq_nil_or_concat b with rfl | ⟨l, x, rfl⟩
  · simp [vlqShape] at hsh
  · rw [List.concat_eq_append] at *
    have hsh' := hsh
    rw [vlqShape, List.dropLast_concat, List.getLast?_concat] at hsh'
    simp only [Bool.and_eq_true, decide_eq_true_eq] at hsh'
    obtain ⟨hl, hx⟩ := hsh'
    have hP : vlqPayload (l ++ [x]) 0 = vlqPayload l 0 * 128 + x := by
      simp [vlqPayload, List.foldl_append, Nat.mod_eq_of_lt hx]
    set Q := vlqPayload l 0 with hQdef
    rw [hP, to_variable_length_bytes_eq]
    have hdiv : (Q * 128 + x) >>> 7 = Q := by
      rw [Nat.shiftRight_eq_div_pow]
      norm_num
      omega
    have hmod : (Q * 128 + x) &&& 0x7F = x := by
      rw [and_127_eq_mod]
      omega
    have hhd' : l.head? ≠ some 128 := by
      cases l with
      | nil => simp
      | cons h t => simpa using hhd
    rw [hdiv, hmod, contDigits_vlqPayload l hl hhd', List.reverse_reverse]

/-! ### Claim C4: VLQ round-trip -/

/-- C4 (counterexample): the round-trip `encode (decode b) = b` fails for the
valid-length (per the claim's definition) VLQ byte sequence `[0x80, 0x00]`:
it decodes to `0`, which re-encodes as the single byte `[0x00]`. -/
theorem vlq_roundtrip_counterexample :
    vlqShape [128, 0] = true ∧
      (get_variable_length_number [128, 0]).map to_variable_length_bytes = some [0] ∧
      ([0] : List Nat) ≠ [128, 0] := by
  decide

/-- C4 (amended): `get_variable_length_number (to_variable_length_bytes n) = n`
for every natural `n`; and `to_variable_length_bytes
(get_variable_length_number b) = b` for every valid-length VLQ byte sequence
`b` that is minimal, i.e. that does not start with a redundant
all-continuation byte `0x80` (without minimality the second direction fails,
see the counterexample). -/
theorem vlq_roundtrip :
    (∀ n : Nat, get_variable_length_number (to_variable_length_bytes n) = some n) ∧
      (∀ b : List Nat, vlqCanonical b = true →
        (get_variable_length_number b).map to_variable_length_bytes = some b) :=
  ⟨get_to_variable_length_bytes, to_get_variable_length_number⟩

/-- C4 (witness): the round-trip theorem applied at `n = 5` and at the
canonical two-byte sequence `[0x81, 0x01]` (the encoding of 129). -/
theorem vlq_roundtrip_witness :
    get_variable_length_number (to_variable_length_bytes 5) = some 5 ∧
      (get_variable_length_number [129, 1]).map to_variable_length_bytes = some [129, 1] :=
  ⟨vlq_roundtrip.1 5, vlq_roundtrip.2 [129, 1] (by decide)⟩

/-! ### Claim C8: event encoding masks fields -/

/-- C8: `NoteOn(channel=5, note=200, velocity=130)` encodes to exactly
`[0x95, 0x48, 0x02]`: status `0x90 ||| (5 &&& 0x0F)`, note `200 &&& 0x7F =
0x48`, velocity `130 &&& 0x7F = 0x02` — masked, not rejected or saturated. -/
theorem noteOn_mask_bytes : (MIDIEvent.NoteOn 5 200 130).as_bytes = [0x95, 0x48, 0x02] := by
  decide

/-! ### Claims C5 and C7: file framing -/

/-- The big-endian field written for a body length equals that length modulo
`2^32` (each of the four bytes is masked with `0xFF`). -/
theorem fieldValue_be32 (n : Nat) : fieldValue (be32 n) = n % 2 ^ 32 := by
  simp only [be32, fieldValue, List.foldl_cons, List.foldl_nil, and_255_eq_mod,
    Nat.shiftRight_eq_div_pow]
  norm_num
  omega

/-- A successful `save` returns the header followed by the track chunks, and
implies the track count fit in the single count byte the source writes. -/
theorem save_ok_eq {w : MidiWriterRaw} {out : List Nat} (h : MidiWriterRaw.save w = .ok out) :
    out = saveHeader w ++ (w.tracks.map trackChunk).flatten ∧ w.tracks.length ≤ 255 := by
  rw [MidiWriterRaw.save] at h
  by_cases h1 : w.tracks.length > 255
  · rw [if_pos h1] at h
    exact absurd h (by simp)
  · rw [if_neg h1] at h
    by_cases h2 : w.tracks.any (fun t => t.any (fun b => b > 255)) = true
    · rw [if_pos h2] at h
      exact absurd h (by simp)
    · rw [if_neg h2] at h
      simp only [Except.ok.injEq] at h
      exact ⟨h.symm, by omega⟩

set_option maxRecDepth 8192 in
/-- C5 (counterexample): `save` does not emit a header for every writer
state — with 256 (empty) tracks the source raises `ValueError` while
building `bytes([0, len(self.tracks)])`. -/
theorem save_header_counterexample :
    MidiWriterRaw.save ⟨100, List.replicate 256 []⟩ = .error "ValueError" := rfl

/-- C5 (amended): whenever `save` succeeds it emits the 14-byte header
`"MThd"`, length `0x00000006`, format `0x0001`, the track count as a
big-endian 16-bit integer (high byte 0 — success implies the count fits in
the low byte), and `ppqn % 65536` as a big-endian 16-bit integer (equal to
the ppqn whenever it is below `2^16`); in particular for ppqn 100 and one
empty track the output is exactly the claimed 22 bytes. -/
theorem save_header_spec :
    (∀ w out, MidiWriterRaw.save w = .ok out →
      w.tracks.length ≤ 255 ∧
        out.take 14 = saveHeader w ∧
        saveHeader w = [0x4D, 0x54, 0x68, 0x64, 0, 0, 0, 6, 0, 1, 0, w.tracks.length,
          (w.ppqn >>> 8) &&& 0xFF, w.ppqn &&& 0xFF] ∧
        fieldValue [0, w.tracks.length] = w.tracks.length ∧
        fieldValue [(w.ppqn >>> 8) &&& 0xFF, w.ppqn &&& 0xFF] = w.ppqn % 65536) ∧
      MidiWriterRaw.save ⟨100, [[]]⟩ =
        .ok [0x4D, 0x54, 0x68, 0x64, 0, 0, 0, 6, 0, 1, 0, 1, 0, 0x64,
          0x4D, 0x54, 0x72, 0x6B, 0, 0, 0, 0] := by
  constructor
  · intro w out h
    obtain ⟨hout, hlen⟩ := save_ok_eq h
    refine ⟨hlen, ?_, ?_, ?_, ?_⟩
    · rw [hout, show (14 : Nat) = (saveHeader w).length by simp [saveHeader],
        List.take_left]
    · simp [saveHeader]
    · simp [fieldValue]
    · simp only [fieldValue, List.foldl_cons, List.foldl_nil, and_255_eq_mod,
        Nat.shiftRight_eq_div_pow]
      norm_num
      omega
  · rfl

/-- C5 (witness): the header theorem applied to the writer with ppqn 100 and
one empty track, whose `save` output is computed concretely. -/
theorem save_header_spec_witness :
    (MidiWriterRaw.mk 100 [[]]).tracks.length ≤ 255 ∧
      ([0x4D, 0x54, 0x68, 0x64, 0, 0, 0, 6, 0, 1, 0, 1, 0, 0x64,
          0x4D, 0x54, 0x72, 0x6B, 0, 0, 0, 0] : List Nat).take 14 =
        saveHeader (MidiWriterRaw.mk 100 [[]]) ∧
      saveHeader (MidiWriterRaw.mk 100 [[]]) =
        [0x4D, 0x54, 0x68, 0x64, 0, 0, 0, 6, 0, 1, 0,
          (MidiWriterRaw.mk 100 [[]]).tracks.length,
          ((MidiWriterRaw.mk 100 [[]]).ppqn >>> 8) &&& 0xFF,
          (MidiWriterRaw.mk 100 [[]]).ppqn &&& 0xFF] ∧
      fieldValue [0, (MidiWriterRaw.mk 100 [[]]).tracks.length] =
        (MidiWriterRaw.mk 100 [[]]).tracks.length ∧
      fieldValue [((MidiWriterRaw.mk 100 [[]]).ppqn >>> 8) &&& 0xFF,
          (MidiWriterRaw.mk 100 [[]]).ppqn &&& 0xFF] =
        (MidiWriterRaw.mk 100 [[]]).ppqn % 65536 :=
  save_header_spec.1 (MidiWriterRaw.mk 100 [[]])
    [0x4D, 0x54, 0x68, 0x64, 0, 0, 0, 6, 0, 1, 0, 1, 0, 0x64,
      0x4D, 0x54, 0x72, 0x6B, 0, 0, 0, 0] rfl

/-- C7 (counterexample): the length field is not always the exact byte
count — for a single track of `2^32` zero bytes, `save` succeeds but writes
the four length bytes `[0, 0, 0, 0]` (value 0) for a body of `2^32` bytes. -/
theorem track_length_field_counterexample :
    MidiWriterRaw.save ⟨480, [List.replicate (2 ^ 32) 0]⟩ =
        .ok (saveHeader ⟨480, [List.replicate (2 ^ 32) 0]⟩ ++
          ([0x4D, 0x54, 0x72, 0x6B] ++ [0, 0, 0, 0] ++ List.replicate (2 ^ 32) 0)) ∧
      fieldValue [0, 0, 0, 0] = 0 ∧
      (List.replicate (2 ^ 32) (0 : Nat)).length = 2 ^ 32 ∧ (0 : Nat) ≠ 2 ^ 32 := by
  have hlen : (List.replicate (2 ^ 32) (0 : Nat)).length = 2 ^ 32 :=
    List.length_replicate _ _
  have hany : ([List.replicate (2 ^ 32) (0 : Nat)]).any (fun t => t.any (fun b => b > 255)) =
      false := by
    rw [List.any_cons, List.any_nil, List.any_replicate]
    norm_num
  refine ⟨?_, by simp [fieldValue], hlen, by norm_num⟩
  rw [MidiWriterRaw.save]
  rw [if_neg (show ¬(⟨480, [List.replicate (2 ^ 32) 0]⟩ : MidiWriterRaw).tracks.length > 255 by
    rw [show (⟨480, [List.replicate (2 ^ 32) 0]⟩ : MidiWriterRaw).tracks.length = 1 from
      List.length_singleton _]
    norm_num)]
  rw [if_neg (by rw [hany]; simp)]
  rw [show (([List.replicate (2 ^ 32) (0 : Nat)]).map trackChunk).flatten =
      trackChunk (List.replicate (2 ^ 32) 0) by
    rw [List.map_cons, List.map_nil, List.flatten_cons, List.flatten_nil, List.append_nil]]
  rw [trackChunk, hlen]
  rw [show be32 (2 ^ 32) = [0, 0, 0, 0] by
    simp only [be32, and_255_eq_mod, Nat.shiftRight_eq_div_pow]
    norm_num]

/-- C7 (amended): whenever `save` succeeds, the output is the header
followed by, for each held track in order, a chunk whose four length bytes
encode the exact body byte count modulo `2^32` — hence exactly the body
byte count whenever that count is below `2^32` (always the case for real
inputs; see the counterexample for the `≥ 2^32` failure). -/
theorem track_length_field_spec :
    ∀ w out, MidiWriterRaw.save w = .ok out →
      out = saveHeader w ++ (w.tracks.map trackChunk).flatten ∧
        ∀ t ∈ w.tracks, trackChunk t = [0x4D, 0x54, 0x72, 0x6B] ++ be32 t.length ++ t ∧
          fieldValue (be32 t.length) = t.length % 2 ^ 32 ∧
          (t.length < 2 ^ 32 → fieldValue (be32 t.length) = t.length) := by
  intro w out h
  obtain ⟨hout, _⟩ := save_ok_eq h
  refine ⟨hout, ?_⟩
  intro t _
  exact ⟨rfl, fieldValue_be32 t.length, fun hlt => by rw [fieldValue_be32, Nat.mod_eq_of_lt hlt]⟩

/-- C7 (witness): the length-field theorem applied to a writer holding the
single four-byte track `[0x00, 0xFF, 0x2F, 0x00]`. -/
theorem track_length_field_spec_witness :
    ([0x4D, 0x54, 0x68, 0x64, 0, 0, 0, 6, 0, 1, 0, 1, 1, 224,
        0x4D, 0x54, 0x72, 0x6B, 0, 0, 0, 4, 0x00, 0xFF, 0x2F, 0x00] : List Nat) =
      saveHeader ⟨480, [[0x00, 0xFF, 0x2F, 0x00]]⟩ ++
        ((⟨480, [[0x00, 0xFF, 0x2F, 0x00]]⟩ : MidiWriterRaw).tracks.map trackChunk).flatten ∧
      ∀ t ∈ (⟨480, [[0x00, 0xFF, 0x2F, 0x00]]⟩ : MidiWriterRaw).tracks,
        trackChunk t = [0x4D, 0x54, 0x72, 0x6B] ++ be32 t.length ++ t ∧
          fieldValue (be32 t.length) = t.length % 2 ^ 32 ∧
          (t.length < 2 ^ 32 → fieldValue (be32 t.length) = t.length) :=
  track_length_field_spec ⟨480, [[0x00, 0xFF, 0x2F, 0x00]]⟩
    [0x4D, 0x54, 0x68, 0x64, 0, 0, 0, 6, 0, 1, 0, 1, 1, 224,
      0x4D, 0x54, 0x72, 0x6B, 0, 0, 0, 4, 0x00, 0xFF, 0x2F, 0x00] rfl

/-! ### Encoder: effect of the sample loops -/

/-- Replay a list of logged pushes against a writer. -/
def pushList (smf : MidiWriterRaw) (l : List (Nat × Nat × MIDIEvent)) : MidiWriterRaw :=
  l.foldl (fun s x => s.push_event x.1 x.2.1 x.2.2) smf

theorem pushList_nil (smf : MidiWriterRaw) : pushList smf [] = smf := rfl

theorem pushList_append (smf : MidiWriterRaw) (l₁ l₂ : List (Nat × Nat × MIDIEvent)) :
    pushList smf (l₁ ++ l₂) = pushList (pushList smf l₁) l₂ :=
  List.foldl_append _ _ _ _

/-- What the sample loop is allowed to push: note events only, on a lane
below 4, and below 2 unless on the right channel. -/
def lanePushOk (is_right_channel : Bool) (x : Nat × Nat × MIDIEvent) : Prop :=
  x.2.2.isNote = true ∧ x.2.2.isEndOfTrack = false ∧ x.1 < 4 ∧
    (is_right_channel = false → x.1 < 2)

theorem amp2vel_lane (point : Int) (is_right_channel : Bool) :
    (amp2vel point is_right_channel).2 < 4 ∧
      (is_right_channel = false → (amp2vel point is_right_channel).2 < 2) := by
  simp only [amp2vel]
  constructor
  · split <;> split <;> omega
  · intro hr
    subst hr
    simp only [if_false, Bool.false_eq_true]
    split <;> omega

/-- A successful sample step appends only in-lane note pushes to the log and
replays them on the writer. -/
theorem sampleStep_ok {total : Nat} {is_right_channel : Bool} {st : EncSt} {point : Int}
    {st' : EncSt} (h : sampleStep total is_right_channel st point = .ok st') :
    ∃ l, st'.pushes = st.pushes ++ l ∧ st'.smf = pushList st.smf l ∧
      ∀ x ∈ l, lanePushOk is_right_channel x := by
  have hlane := amp2vel_lane point is_right_channel
  rw [sampleStep] at h
  by_cases hdiv : total / 20 = 0
  · rw [if_pos hdiv] at h
    exact absurd h (by simp)
  · rw [if_neg hdiv] at h
    simp only [Except.ok.injEq] at h
    by_cases hv : (amp2vel point is_right_channel).1 ≠ 0
    · rw [if_pos hv, if_pos hv] at h
      refine ⟨[((amp2vel point is_right_channel).2, st.deltatimes.getD
        (amp2vel point is_right_channel).2 0, MIDIEvent.NoteOn (amp2vel point is_right_channel).2
          60 (amp2vel point is_right_channel).1),
        ((amp2vel point is_right_channel).2, 1, MIDIEvent.NoteOff
          (amp2vel point is_right_channel).2 60 (amp2vel point is_right_channel).1)], ?_, ?_, ?_⟩
      · rw [← h]
        simp [EncSt.push]
      · rw [← h]
        simp [EncSt.push, pushList, MIDIEvent.isNote]
      · intro x hx
        rcases List.mem_cons.mp hx with hx | hx
        · subst hx
          exact ⟨rfl, rfl, hlane.1, hlane.2⟩
        · rw [List.mem_singleton] at hx
          subst hx
          exact ⟨rfl, rfl, hlane.1, hlane.2⟩
    · rw [if_neg hv, if_neg hv] at h
      refine ⟨[], ?_, ?_, by simp⟩
      · rw [← h]
        simp
      · rw [← h, pushList_nil]

theorem except_bind_error {ε α β : Type} (e : ε) (g : α → Except ε β) :
    (Except.error e >>= g) = Except.error e := rfl

theorem except_bind_ok {ε α β : Type} (a : α) (g : α → Except ε β) :
    (Except.ok a >>= g) = g a := rfl

/-- A successful run of one channel loop appends only in-lane note pushes. -/
theorem runChannel_fold_ok {total : Nat} {is_right_channel : Bool} {samples : List Int} :
    ∀ (idxs : List Nat) (st st' : EncSt),
      List.foldlM
        (fun st i =>
          match samples[i]? with
          | none => Except.error ("IndexError", st)
          | some point => sampleStep total is_right_channel st point)
        st idxs = .ok st' →
      ∃ l, st'.pushes = st.pushes ++ l ∧ st'.smf = pushList st.smf l ∧
        ∀ x ∈ l, lanePushOk is_right_channel x := by
  intro idxs
  induction idxs with
  | nil =>
    intro st st' h
    rw [List.foldlM_nil] at h
    simp only [pure, Except.pure, Except.ok.injEq] at h
    subst h
    exact ⟨[], by simp, by rw [pushList_nil], by simp⟩
  | cons i t ih =>
    intro st st' h
    rw [List.foldlM_cons] at h
    cases hsi : samples[i]? with
    | none =>
      simp only [hsi] at h
      rw [except_bind_error] at h
      exact absurd h (by simp)
    | some point =>
      simp only [hsi] at h
      cases hstep : sampleStep total is_right_channel st point with
      | error e =>
        rw [hstep, except_bind_error] at h
        exact absurd h (by simp)
      | ok st₁ =>
        rw [hstep, except_bind_ok] at h
        obtain ⟨l₁, hp₁, hs₁, hx₁⟩ := sampleStep_ok hstep
        obtain ⟨l₂, hp₂, hs₂, hx₂⟩ := ih st₁ st' h
        refine ⟨l₁ ++ l₂, ?_, ?_, ?_⟩
        · rw [hp₂, hp₁, List.append_assoc]
        · rw [hs₂, hs₁, pushList_append]
        · intro x hx
          rcases List.mem_append.mp hx with hx | hx
          · exact hx₁ x hx
          · exact hx₂ x hx

theorem runChannel_ok {total : Nat} {is_right_channel : Bool} {samples : List Int}
    {st st' : EncSt} (h : runChannel total is_right_channel samples st = .ok st') :
    ∃ l, st'.pushes = st.pushes ++ l ∧ st'.smf = pushList st.smf l ∧
      ∀ x ∈ l, lanePushOk is_right_channel x := by
  rw [runChannel] at h
  exact runChannel_fold_ok _ st st' h

/-- Events the whole sample phase may push: notes only, lanes below 4. -/
def notePushOk (x : Nat × Nat × MIDIEvent) : Prop :=
  x.2.2.isNote = true ∧ x.2.2.isEndOfTrack = false ∧ x.1 < 4

theorem lanePushOk_notePushOk {is_right_channel : Bool} {x : Nat × Nat × MIDIEvent}
    (h : lanePushOk is_right_channel x) : notePushOk x :=
  ⟨h.1, h.2.1, h.2.2.1⟩

/-- Channel phase for mono input: only lanes 0–1 receive (note) pushes. -/
theorem channelsLoop_ok_mono {src : List (List Int)} {total : Nat} {st st' : EncSt}
    (hlen : src.length = 1) (h : channelsLoop src total st = .ok st') :
    ∃ l, st'.pushes = st.pushes ++ l ∧ st'.smf = pushList st.smf l ∧
      ∀ x ∈ l, lanePushOk false x := by
  rw [channelsLoop, hlen] at h
  rw [show List.range 1 = [0] from rfl, List.foldlM_cons] at h
  cases hf : runChannel total (0 == 1) (src.getD 0 []) { st with deltatimes := [0, 0, 0, 0] } with
  | error e =>
    simp only [hf, except_bind_error] at h
    exact absurd h (by simp)
  | ok st₁ =>
    simp only [hf, except_bind_ok, List.foldlM_nil] at h
    simp only [pure, Except.pure, Except.ok.injEq] at h
    subst h
    obtain ⟨l, hp, hs, hx⟩ := runChannel_ok hf
    exact ⟨l, hp, hs, hx⟩

/-- Channel phase for stereo input: only lanes 0–3 receive (note) pushes. -/
theorem channelsLoop_ok_stereo {src : List (List Int)} {total : Nat} {st st' : EncSt}
    (hlen : src.length = 2) (h : channelsLoop src total st = .ok st') :
    ∃ l, st'.pushes = st.pushes ++ l ∧ st'.smf = pushList st.smf l ∧
      ∀ x ∈ l, notePushOk x := by
  rw [channelsLoop, hlen] at h
  rw [show List.range 2 = [0, 1] from rfl, List.foldlM_cons] at h
  cases hf : runChannel total (0 == 1) (src.getD 0 []) { st with deltatimes := [0, 0, 0, 0] } with
  | error e =>
    simp only [hf, except_bind_error] at h
    exact absurd h (by simp)
  | ok st₁ =>
    simp only [hf, except_bind_ok, List.foldlM_cons] at h
    cases hf₂ : runChannel total (1 == 1) (src.getD 1 []) { st₁ with deltatimes := [0, 0, 0, 0] }
      with
    | error e =>
      simp only [hf₂, except_bind_error] at h
      exact absurd h (by simp)
    | ok st₂ =>
      simp only [hf₂, except_bind_ok, List.foldlM_nil] at h
      simp only [pure, Except.pure, Except.ok.injEq] at h
      subst h
      obtain ⟨l₁, hp₁, hs₁, hx₁⟩ := runChannel_ok hf
      obtain ⟨l₂, hp₂, hs₂, hx₂⟩ := runChannel_ok hf₂
      refine ⟨l₁ ++ l₂, ?_, ?_, ?_⟩
      · rw [hp₂, hp₁, List.append_assoc]
      · rw [hs₂, hs₁, pushList_append]
      · intro x hx
        rcases List.mem_append.mp hx with hx | hx
        · exact lanePushOk_notePushOk (hx₁ x hx)
        · exact lanePushOk_notePushOk (hx₂ x hx)

/-- The encoder state after the SetTempo/ProgramChange/ControlChange
prelude (source lines 136–153), before any sample is processed. -/
def preludeEncSt (src : List (List Int)) (smf : MidiWriterRaw) (fs : Nat) : EncSt :=
  let st : EncSt :=
    { smf := smf.set_ppqn (fs / 100), pushes := [], deltatimes := [0, 0, 0, 0], note_count := 0 }
  let st := st.push 0 0 (.SetTempo (60000000 / 6000))
  let st := (st.push 0 0 (.ProgramChange 0 0)).push 1 0 (.ProgramChange 1 74)
  let st :=
    if src.length == 2 then (st.push 2 0 (.ProgramChange 2 0)).push 3 0 (.ProgramChange 3 74)
    else st
  let st := (st.push 0 0 (.ControlChange 0 10 1)).push 1 0 (.ControlChange 1 10 1)
  (st.push 2 0 (.ControlChange 2 10 127)).push 3 0 (.ControlChange 3 10 127)

/-- The final EndOfTrack pushes on all four lanes (source lines 184–185). -/
def pushEOT4 (st : EncSt) : EncSt :=
  (((st.push 0 0 .EndOfTrack).push 1 0 .EndOfTrack).push 2 0 .EndOfTrack).push 3 0 .EndOfTrack

/-- `gen_midi_from_pcm` decomposed into prelude, channel loops, and the
EndOfTrack phase (definitional). -/
theorem gen_midi_from_pcm_eq (src : List (List Int)) (smf : MidiWriterRaw) (fs : Nat) :
    gen_midi_from_pcm src smf fs =
      if src.length = 1 ∨ src.length = 2 then
        match channelsLoop src (src.getD 0 []).length (preludeEncSt src smf fs) with
        | .error e => .error e
        | .ok stl => .ok (pushEOT4 stl, (pushEOT4 stl).note_count)
      else
        .error ("not mono or stereo",
          ({ smf := smf.set_ppqn (fs / 100), pushes := [], deltatimes := [0, 0, 0, 0],
             note_count := 0 } : EncSt).push 0 0 (.SetTempo (60000000 / 6000))) := rfl

/-! ### Claim C9: channel counts other than 1 or 2 are rejected -/

/-- C9: for any channel count other than 1 or 2 the encoder raises
`Exception("not mono or stereo")` immediately: the raise-time state shows
the only push so far is the SetTempo event — no sample was processed, no
note event was emitted, and the note count is still 0. -/
theorem channel_count_rejected (src : List (List Int)) (smf : MidiWriterRaw) (fs : Nat)
    (h1 : src.length ≠ 1) (h2 : src.length ≠ 2) :
    gen_midi_from_pcm src smf fs =
      .error ("not mono or stereo",
        { smf := (smf.set_ppqn (fs / 100)).push_event 0 0 (.SetTempo 10000),
          pushes := [(0, 0, .SetTempo 10000)],
          deltatimes := [0, 0, 0, 0], note_count := 0 }) ∧
      ([((0 : Nat), (0 : Nat), MIDIEvent.SetTempo 10000)].filter (fun x => x.2.2.isNote)) = []
        := by
  constructor
  · rw [gen_midi_from_pcm_eq, if_neg (by tauto)]
    rfl
  · rfl

/-- C9 (witness): the rejection theorem applied to a 3-channel input. -/
theorem channel_count_rejected_witness :
    gen_midi_from_pcm [[], [], []] MidiWriterRaw.init 100 =
      .error ("not mono or stereo",
        { smf := (MidiWriterRaw.init.set_ppqn (100 / 100)).push_event 0 0 (.SetTempo 10000),
          pushes := [(0, 0, .SetTempo 10000)],
          deltatimes := [0, 0, 0, 0], note_count := 0 }) ∧
      ([((0 : Nat), (0 : Nat), MIDIEvent.SetTempo 10000)].filter (fun x => x.2.2.isNote)) = [] :=
  channel_count_rejected [[], [], []] MidiWriterRaw.init 100 (by decide) (by decide)

/-! ### Claim C3: short inputs crash with ZeroDivisionError -/

/-- When `total_samples // 20 == 0`, the progress guard's `i % 0` raises on
the very first sample of the first channel. -/
theorem sampleStep_zero_div (total : Nat) (is_right_channel : Bool) (st : EncSt) (point : Int)
    (h : total / 20 = 0) :
    ∃ stE, sampleStep total is_right_channel st point = .error ("ZeroDivisionError", stE) :=
  ⟨_, by
    simp only [sampleStep]
    rw [if_pos h]⟩

theorem runChannel_zero_div (total : Nat) (is_right_channel : Bool) (p : Int)
    (rest : List Int) (st : EncSt) (h : total / 20 = 0) (htot : 1 ≤ total) :
    ∃ stE, runChannel total is_right_channel (p :: rest) st =
      .error ("ZeroDivisionError", stE) := by
  obtain ⟨m, rfl⟩ : ∃ m, total = m + 1 := ⟨total - 1, by omega⟩
  rw [runChannel, List.range_succ_eq_map, List.foldlM_cons]
  obtain ⟨stE, hstep⟩ := sampleStep_zero_div (m + 1) is_right_channel st p h
  refine ⟨stE, ?_⟩
  have hp : (p :: rest)[0]? = some p := by simp
  simp only [hp, hstep, except_bind_error]

theorem channelsLoop_zero_div {src : List (List Int)} {p : Int} {rest : List Int} (st : EncSt)
    (hch : src.length = 1 ∨ src.length = 2) (h0 : src.getD 0 [] = p :: rest)
    (h : (p :: rest).length / 20 = 0) :
    ∃ stE, channelsLoop src (src.getD 0 []).length st = .error ("ZeroDivisionError", stE) := by
  obtain ⟨stE, hrc⟩ :=
    runChannel_zero_div (p :: rest).length (0 == 1) p rest
      { st with deltatimes := [0, 0, 0, 0] } h (by simp)
  refine ⟨stE, ?_⟩
  rw [channelsLoop]
  rcases hch with hlen | hlen
  · rw [hlen, show List.range 1 = [0] from rfl, List.foldlM_cons]
    simp only [h0, hrc, except_bind_error]
  · rw [hlen, show List.range 2 = [0, 1] from rfl, List.foldlM_cons]
    simp only [h0, hrc, except_bind_error]

/-- C3: for every mono or stereo input whose per-channel sample count `n`
satisfies `1 ≤ n < 20`, the encoder raises `ZeroDivisionError`: the
progress guard computes `i % (total_samples // 20)` with
`total_samples // 20 == 0` already on the first sample, so
`gen_midi_from_pcm` never returns and no output file can be written. -/
theorem small_input_zero_division (src : List (List Int)) (fs n : Nat)
    (hch : src.length = 1 ∨ src.length = 2) (hlen : ∀ c ∈ src, c.length = n)
    (hn1 : 1 ≤ n) (hn2 : n < 20) :
    encErr (gen_midi_from_pcm src MidiWriterRaw.init fs) = some "ZeroDivisionError" := by
  have hsrc0 : ∃ c rest, src = c :: rest := by
    rcases hch with h | h
    · rcases src with _ | ⟨c, rest⟩
      · simp at h
      · exact ⟨c, rest, rfl⟩
    · rcases src with _ | ⟨c, rest⟩
      · simp at h
      · exact ⟨c, rest, rfl⟩
  obtain ⟨c, rest, rfl⟩ := hsrc0
  have hc : c.length = n := hlen c (by simp)
  obtain ⟨p, ptail, rfl⟩ : ∃ p ptail, c = p :: ptail := by
    rcases c with _ | ⟨p, ptail⟩
    · simp at hc
      omega
    · exact ⟨p, ptail, rfl⟩
  have h0 : ((p :: ptail) :: rest).getD 0 [] = p :: ptail := rfl
  have hdiv : (p :: ptail).length / 20 = 0 := by
    rw [hc]
    omega
  obtain ⟨stE, hcl⟩ :=
    channelsLoop_zero_div (preludeEncSt ((p :: ptail) :: rest) MidiWriterRaw.init fs)
      hch h0 hdiv
  rw [gen_midi_from_pcm_eq, if_pos hch, hcl]
  rfl

/-- C3 (witness): a one-sample mono input at fs = 100 crashes with
`ZeroDivisionError`. -/
theorem small_input_zero_division_witness :
    encErr (gen_midi_from_pcm [[(1000 : Int)]] MidiWriterRaw.init 100) =
      some "ZeroDivisionError" :=
  small_input_zero_division [[(1000 : Int)]] 100 1 (by decide)
    (by intro c hc; simp at hc; simp [hc]) (by decide) (by decide)

/-! ### Writer effect lemmas for the EndOfTrack and lane claims -/

/-- Pushing on an existing track replaces exactly that track with its
extension (the auto-extension appends nothing). -/
theorem push_event_tracks {w : MidiWriterRaw} {track wait : Nat} {event : MIDIEvent}
    (h : track < w.tracks.length) :
    (w.push_event track wait event).tracks =
      w.tracks.set track
        (w.tracks.getD track [] ++ (to_variable_length_bytes wait ++ event.as_bytes)) := by
  rw [MidiWriterRaw.push_event]
  by_cases hc : track + 1 ≥ w.tracks.length
  · have h0 : track + 1 - w.tracks.length = 0 := by omega
    simp only [if_pos hc, h0, List.replicate, List.append_nil]
  · simp only [if_neg hc]

theorem push_event_length {w : MidiWriterRaw} {track wait : Nat} {event : MIDIEvent}
    (h : track < w.tracks.length) :
    (w.push_event track wait event).tracks.length = w.tracks.length := by
  rw [push_event_tracks h, List.length_set]

theorem push_event_getD_ne {w : MidiWriterRaw} {track wait j : Nat} {event : MIDIEvent}
    (h : track < w.tracks.length) (hj : track ≠ j) :
    (w.push_event track wait event).tracks.getD j [] = w.tracks.getD j [] := by
  rw [push_event_tracks h, List.getD_eq_getElem?_getD, List.getElem?_set_ne hj,
    ← List.getD_eq_getElem?_getD]

theorem push_event_getD_self {w : MidiWriterRaw} {track wait : Nat} {event : MIDIEvent}
    (h : track < w.tracks.length) :
    (w.push_event track wait event).tracks.getD track [] =
      w.tracks.getD track [] ++ (to_variable_length_bytes wait ++ event.as_bytes) := by
  rw [push_event_tracks h, List.getD_eq_getElem?_getD, List.getElem?_set_self h]
  rfl

/-- Replaying pushes that all target lanes 0–1 on a 4-track writer keeps the
track count and leaves tracks 2 and 3 untouched. -/
theorem pushList_preserve_hi :
    ∀ (l : List (Nat × Nat × MIDIEvent)) (w : MidiWriterRaw), w.tracks.length = 4 →
      (∀ x ∈ l, x.1 < 2) →
      (pushList w l).tracks.length = 4 ∧
        (pushList w l).tracks.getD 2 [] = w.tracks.getD 2 [] ∧
        (pushList w l).tracks.getD 3 [] = w.tracks.getD 3 [] := by
  intro l
  induction l with
  | nil => intro w hw _; exact ⟨hw, rfl, rfl⟩
  | cons x t ih =>
    intro w hw hl
    have hx : x.1 < 2 := hl x (by simp)
    have hxlt : x.1 < w.tracks.length := by omega
    have hstep : (w.push_event x.1 x.2.1 x.2.2).tracks.length = w.tracks.length :=
      push_event_length hxlt
    have h2 : (w.push_event x.1 x.2.1 x.2.2).tracks.getD 2 [] = w.tracks.getD 2 [] :=
      push_event_getD_ne hxlt (show x.1 ≠ 2 by omega)
    have h3 : (w.push_event x.1 x.2.1 x.2.2).tracks.getD 3 [] = w.tracks.getD 3 [] :=
      push_event_getD_ne hxlt (show x.1 ≠ 3 by omega)
    have hrest := ih (w.push_event x.1 x.2.1 x.2.2) (by rw [hstep, hw])
      (fun y hy => hl y (by simp [hy]))
    refine ⟨hrest.1, ?_, ?_⟩
    · rw [show pushList w (x :: t) = pushList (w.push_event x.1 x.2.1 x.2.2) t from rfl,
        hrest.2.1, h2]
    · rw [show pushList w (x :: t) = pushList (w.push_event x.1 x.2.1 x.2.2) t from rfl,
        hrest.2.2, h3]

/-- Replaying pushes that all target lanes 0–3 on a 4-track writer keeps the
track count at 4. -/
theorem pushList_preserve_length :
    ∀ (l : List (Nat × Nat × MIDIEvent)) (w : MidiWriterRaw), w.tracks.length = 4 →
      (∀ x ∈ l, x.1 < 4) → (pushList w l).tracks.length = 4 := by
  intro l
  induction l with
  | nil => intro w hw _; exact hw
  | cons x t ih =>
    intro w hw hl
    have hx : x.1 < 4 := hl x (by simp)
    have hstep : (w.push_event x.1 x.2.1 x.2.2).tracks.length = w.tracks.length :=
      push_event_length (show x.1 < w.tracks.length by omega)
    exact ih (w.push_event x.1 x.2.1 x.2.2) (by rw [hstep, hw])
      (fun y hy => hl y (by simp [hy]))

/-- The prelude's ghost log for mono input: SetTempo, two ProgramChanges,
four ControlChanges. -/
theorem preludeEncSt_pushes_mono (src : List (List Int)) (smf : MidiWriterRaw) (fs : Nat)
    (hlen : src.length = 1) :
    (preludeEncSt src smf fs).pushes =
      [(0, 0, .SetTempo 10000), (0, 0, .ProgramChange 0 0), (1, 0, .ProgramChange 1 74),
       (0, 0, .ControlChange 0 10 1), (1, 0, .ControlChange 1 10 1),
       (2, 0, .ControlChange 2 10 127), (3, 0, .ControlChange 3 10 127)] := by
  have hb : (src.length == 2) = false := by rw [hlen]; rfl
  rw [preludeEncSt]
  rw [hb]
  rfl

/-- The prelude's ghost log for stereo input: SetTempo, four ProgramChanges,
four ControlChanges. -/
theorem preludeEncSt_pushes_stereo (src : List (List Int)) (smf : MidiWriterRaw) (fs : Nat)
    (hlen : src.length = 2) :
    (preludeEncSt src smf fs).pushes =
      [(0, 0, .SetTempo 10000), (0, 0, .ProgramChange 0 0), (1, 0, .ProgramChange 1 74),
       (2, 0, .ProgramChange 2 0), (3, 0, .ProgramChange 3 74),
       (0, 0, .ControlChange 0 10 1), (1, 0, .ControlChange 1 10 1),
       (2, 0, .ControlChange 2 10 127), (3, 0, .ControlChange 3 10 127)] := by
  have hb : (src.length == 2) = true := by rw [hlen]; rfl
  rw [preludeEncSt]
  rw [hb]
  rfl

/-! ### Claim C6: exactly one EndOfTrack per lane -/

/-- C6: whenever the encoder finishes all samples (returns successfully), the
EndOfTrack pushes in the entire run are exactly one per lane — on tracks
0, 1, 2 and 3, each at delta-time 0, appended after everything else — for
mono and stereo input alike. -/
theorem end_of_track_all_lanes (src : List (List Int)) (fs : Nat) (st : EncSt) (n : Nat)
    (hch : src.length = 1 ∨ src.length = 2)
    (h : gen_midi_from_pcm src MidiWriterRaw.init fs = .ok (st, n)) :
    st.pushes.filter (fun x => x.2.2.isEndOfTrack) =
      [(0, 0, .EndOfTrack), (1, 0, .EndOfTrack), (2, 0, .EndOfTrack), (3, 0, .EndOfTrack)] := by
  rw [gen_midi_from_pcm_eq, if_pos hch] at h
  cases hcl : channelsLoop src (src.getD 0 []).length (preludeEncSt src MidiWriterRaw.init fs)
    with
  | error e =>
    rw [hcl] at h
    exact absurd h (by simp)
  | ok stl =>
    rw [hcl] at h
    simp only [Except.ok.injEq, Prod.mk.injEq] at h
    have hst : st = pushEOT4 stl := h.1.symm
    have hpush : st.pushes = stl.pushes ++
        [(0, 0, .EndOfTrack), (1, 0, .EndOfTrack), (2, 0, .EndOfTrack), (3, 0, .EndOfTrack)] := by
      rw [hst]
      simp [pushEOT4, EncSt.push]
    rcases hch with hlen | hlen
    · obtain ⟨l, hl, _, hlx⟩ := channelsLoop_ok_mono hlen hcl
      have hfl : l.filter (fun x => x.2.2.isEndOfTrack) = [] :=
        List.filter_eq_nil_iff.mpr (fun x hx => by simp [(hlx x hx).2.1])
      rw [hpush, hl, preludeEncSt_pushes_mono src _ fs hlen, List.filter_append,
        List.filter_append, hfl]
      rfl
    · obtain ⟨l, hl, _, hlx⟩ := channelsLoop_ok_stereo hlen hcl
      have hfl : l.filter (fun x => x.2.2.isEndOfTrack) = [] :=
        List.filter_eq_nil_iff.mpr (fun x hx => by simp [(hlx x hx).2.1])
      rw [hpush, hl, preludeEncSt_pushes_stereo src _ fs hlen, List.filter_append,
        List.filter_append, hfl]
      rfl

/-- C6 (witness): the EndOfTrack theorem applied to the empty mono input at
fs = 100, whose final state is computed concretely. -/
theorem end_of_track_all_lanes_witness :
    (EncSt.mk
        (MidiWriterRaw.mk 1
          [[0, 255, 81, 3, 0, 39, 16, 0, 192, 0, 0, 176, 10, 1, 0, 255, 47, 0],
            [0, 193, 74, 0, 177, 10, 1, 0, 255, 47, 0],
            [0, 178, 10, 127, 0, 255, 47, 0],
            [0, 179, 10, 127, 0, 255, 47, 0]])
        [(0, 0, .SetTempo 10000), (0, 0, .ProgramChange 0 0),
          (1, 0, .ProgramChange 1 74), (0, 0, .ControlChange 0 10 1),
          (1, 0, .ControlChange 1 10 1), (2, 0, .ControlChange 2 10 127),
          (3, 0, .ControlChange 3 10 127), (0, 0, .EndOfTrack), (1, 0, .EndOfTrack),
          (2, 0, .EndOfTrack), (3, 0, .EndOfTrack)]
        [0, 0, 0, 0] 0).pushes.filter (fun x => x.2.2.isEndOfTrack) =
      [(0, 0, .EndOfTrack), (1, 0, .EndOfTrack), (2, 0, .EndOfTrack), (3, 0, .EndOfTrack)] :=
  end_of_track_all_lanes [[]] 100 _ 0 (Or.inl rfl) rfl

/-- The prelude's writer tracks for mono input from a fresh writer. -/
theorem preludeEncSt_tracks_mono (src : List (List Int)) (fs : Nat) (hlen : src.length = 1) :
    (preludeEncSt src MidiWriterRaw.init fs).smf.tracks =
      [[0, 255, 81, 3, 0, 39, 16, 0, 192, 0, 0, 176, 10, 1],
        [0, 193, 74, 0, 177, 10, 1], [0, 178, 10, 127], [0, 179, 10, 127]] := by
  have hb : (src.length == 2) = false := by rw [hlen]; rfl
  simp only [preludeEncSt, hb, Bool.false_eq_true, if_false, EncSt.push,
    MidiWriterRaw.push_event, MidiWriterRaw.set_ppqn, MidiWriterRaw.init]
  norm_num [to_variable_length_bytes, to_variable_length_bytes_loop, MIDIEvent.as_bytes,
    List.getD]
  decide

/-! ### Claim C2: what mono input writes to lanes 2 and 3 -/

set_option maxHeartbeats 2000000 in
/-- C2 (counterexample): for mono input, track 2 of the writer is not an
empty byte sequence — already on the empty mono buffer it holds the pan
ControlChange and EndOfTrack bytes (the source pushes `ControlChange(2, 10,
127)` and `ControlChange(3, 10, 127)` unconditionally). -/
theorem mono_lanes_counterexample :
    (match encOk (gen_midi_from_pcm [[]] MidiWriterRaw.init 100) with
      | some (st, _) => st.smf.tracks.getD 2 [] = [0x00, 0xB2, 0x0A, 0x7F, 0x00, 0xFF, 0x2F, 0x00]
          ∧ st.smf.tracks.getD 2 [] ≠ []
      | none => False) := by
  exact ⟨rfl, by decide⟩

/-- C2 (amended): for every mono input on which the encoder completes, no
ProgramChange and no note event is ever pushed to lanes 2–3; each of those
lanes receives exactly one pan ControlChange (value 127) and one
EndOfTrack, so tracks 2 and 3 hold exactly those eight bytes. -/
theorem mono_lanes_two_three (src : List (List Int)) (fs : Nat) (st : EncSt) (n : Nat)
    (hlen : src.length = 1)
    (h : gen_midi_from_pcm src MidiWriterRaw.init fs = .ok (st, n)) :
    st.smf.tracks.length = 4 ∧
      st.smf.tracks.getD 2 [] = [0x00, 0xB2, 0x0A, 0x7F, 0x00, 0xFF, 0x2F, 0x00] ∧
      st.smf.tracks.getD 3 [] = [0x00, 0xB3, 0x0A, 0x7F, 0x00, 0xFF, 0x2F, 0x00] ∧
      st.pushes.filter (fun x => decide (2 ≤ x.1)) =
        [(2, 0, .ControlChange 2 10 127), (3, 0, .ControlChange 3 10 127),
          (2, 0, .EndOfTrack), (3, 0, .EndOfTrack)] := by
  rw [gen_midi_from_pcm_eq, if_pos (Or.inl hlen)] at h
  cases hcl : channelsLoop src (src.getD 0 []).length (preludeEncSt src MidiWriterRaw.init fs)
    with
  | error e =>
    rw [hcl] at h
    exact absurd h (by simp)
  | ok stl =>
    rw [hcl] at h
    simp only [Except.ok.injEq, Prod.mk.injEq] at h
    have hst : st = pushEOT4 stl := h.1.symm
    obtain ⟨l, hl, hsmf, hlx⟩ := channelsLoop_ok_mono hlen hcl
    have hpre := preludeEncSt_tracks_mono src fs hlen
    have hlane : ∀ x ∈ l, x.1 < 2 := fun x hx => (hlx x hx).2.2.2 rfl
    have hpl := pushList_preserve_hi l (preludeEncSt src MidiWriterRaw.init fs).smf
      (by rw [hpre]; rfl) hlane
    have l0 : stl.smf.tracks.length = 4 := by rw [hsmf]; exact hpl.1
    have q2 : stl.smf.tracks.getD 2 [] = [0, 178, 10, 127] := by
      rw [hsmf, hpl.2.1, hpre]
      rfl
    have q3 : stl.smf.tracks.getD 3 [] = [0, 179, 10, 127] := by
      rw [hsmf, hpl.2.2, hpre]
      rfl
    -- the four EndOfTrack pushes, lane by lane
    have hsmfst : st.smf = (((stl.smf.push_event 0 0 .EndOfTrack).push_event 1 0
        .EndOfTrack).push_event 2 0 .EndOfTrack).push_event 3 0 .EndOfTrack := by
      rw [hst]
      rfl
    have h0lt : (0 : Nat) < stl.smf.tracks.length := by omega
    have l1 : (stl.smf.push_event 0 0 .EndOfTrack).tracks.length = 4 := by
      rw [push_event_length h0lt]
      exact l0
    have g12 : (stl.smf.push_event 0 0 .EndOfTrack).tracks.getD 2 [] = [0, 178, 10, 127] := by
      rw [push_event_getD_ne h0lt (by norm_num)]
      exact q2
    have g13 : (stl.smf.push_event 0 0 .EndOfTrack).tracks.getD 3 [] = [0, 179, 10, 127] := by
      rw [push_event_getD_ne h0lt (by norm_num)]
      exact q3
    set w1 := stl.smf.push_event 0 0 .EndOfTrack with hw1
    have h1lt : (1 : Nat) < w1.tracks.length := by omega
    have l2 : (w1.push_event 1 0 .EndOfTrack).tracks.length = 4 := by
      rw [push_event_length h1lt]
      exact l1
    have g22 : (w1.push_event 1 0 .EndOfTrack).tracks.getD 2 [] = [0, 178, 10, 127] := by
      rw [push_event_getD_ne h1lt (by norm_num)]
      exact g12
    have g23 : (w1.push_event 1 0 .EndOfTrack).tracks.getD 3 [] = [0, 179, 10, 127] := by
      rw [push_event_getD_ne h1lt (by norm_num)]
      exact g13
    set w2 := w1.push_event 1 0 .EndOfTrack with hw2
    have h2lt : (2 : Nat) < w2.tracks.length := by omega
    have l3 : (w2.push_event 2 0 .EndOfTrack).tracks.length = 4 := by
      rw [push_event_length h2lt]
      exact l2
    have g32 : (w2.push_event 2 0 .EndOfTrack).tracks.getD 2 [] =
        [0, 178, 10, 127, 0, 255, 47, 0] := by
      rw [push_event_getD_self h2lt, g22]
      rfl
    have g33 : (w2.push_event 2 0 .EndOfTrack).tracks.getD 3 [] = [0, 179, 10, 127] := by
      rw [push_event_getD_ne h2lt (by norm_num)]
      exact g23
    set w3 := w2.push_event 2 0 .EndOfTrack with hw3
    have h3lt : (3 : Nat) < w3.tracks.length := by omega
    have l4 : (w3.push_event 3 0 .EndOfTrack).tracks.length = 4 := by
      rw [push_event_length h3lt]
      exact l3
    have g42 : (w3.push_event 3 0 .EndOfTrack).tracks.getD 2 [] =
        [0, 178, 10, 127, 0, 255, 47, 0] := by
      rw [push_event_getD_ne h3lt (by norm_num)]
      exact g32
    have g43 : (w3.push_event 3 0 .EndOfTrack).tracks.getD 3 [] =
        [0, 179, 10, 127, 0, 255, 47, 0] := by
      rw [push_event_getD_self h3lt, g33]
      rfl
    have hpush : st.pushes = (preludeEncSt src MidiWriterRaw.init fs).pushes ++ l ++
        [(0, 0, .EndOfTrack), (1, 0, .EndOfTrack), (2, 0, .EndOfTrack), (3, 0, .EndOfTrack)]
        := by
      rw [hst]
      simp only [pushEOT4, EncSt.push, List.append_assoc]
      rw [hl]
      simp [List.append_assoc]
    have hfl : l.filter (fun x => decide (2 ≤ x.1)) = [] :=
      List.filter_eq_nil_iff.mpr (fun x hx => by
        have := hlane x hx
        simp
        omega)
    refine ⟨?_, ?_, ?_, ?_⟩
    · rw [hsmfst]
      exact l4
    · rw [hsmfst]
      exact g42
    · rw [hsmfst]
      exact g43
    · rw [hpush, preludeEncSt_pushes_mono src _ fs hlen, List.filter_append,
        List.filter_append, hfl]
      rfl

/-- C2 (witness): the lanes-2/3 theorem applied to the empty mono input at
fs = 100, whose final state is computed concretely. -/
theorem mono_lanes_two_three_witness :
    (EncSt.mk
        (MidiWriterRaw.mk 1
          [[0, 255, 81, 3, 0, 39, 16, 0, 192, 0, 0, 176, 10, 1, 0, 255, 47, 0],
            [0, 193, 74, 0, 177, 10, 1, 0, 255, 47, 0],
            [0, 178, 10, 127, 0, 255, 47, 0],
            [0, 179, 10, 127, 0, 255, 47, 0]])
        [(0, 0, .SetTempo 10000), (0, 0, .ProgramChange 0 0),
          (1, 0, .ProgramChange 1 74), (0, 0, .ControlChange 0 10 1),
          (1, 0, .ControlChange 1 10 1), (2, 0, .ControlChange 2 10 127),
          (3, 0, .ControlChange 3 10 127), (0, 0, .EndOfTrack), (1, 0, .EndOfTrack),
          (2, 0, .EndOfTrack), (3, 0, .EndOfTrack)]
        [0, 0, 0, 0] 0).smf.tracks.length = 4 ∧
      (EncSt.mk
        (MidiWriterRaw.mk 1
          [[0, 255, 81, 3, 0, 39, 16, 0, 192, 0, 0, 176, 10, 1, 0, 255, 47, 0],
            [0, 193, 74, 0, 177, 10, 1, 0, 255, 47, 0],
            [0, 178, 10, 127, 0, 255, 47, 0],
            [0, 179, 10, 127, 0, 255, 47, 0]])
        [(0, 0, .SetTempo 10000), (0, 0, .ProgramChange 0 0),
          (1, 0, .ProgramChange 1 74), (0, 0, .ControlChange 0 10 1),
          (1, 0, .ControlChange 1 10 1), (2, 0, .ControlChange 2 10 127),
          (3, 0, .ControlChange 3 10 127), (0, 0, .EndOfTrack), (1, 0, .EndOfTrack),
          (2, 0, .EndOfTrack), (3, 0, .EndOfTrack)]
        [0, 0, 0, 0] 0).smf.tracks.getD 2 [] =
        [0x00, 0xB2, 0x0A, 0x7F, 0x00, 0xFF, 0x2F, 0x00] ∧
      (EncSt.mk
        (MidiWriterRaw.mk 1
          [[0, 255, 81, 3, 0, 39, 16, 0, 192, 0, 0, 176, 10, 1, 0, 255, 47, 0],
            [0, 193, 74, 0, 177, 10, 1, 0, 255, 47, 0],
            [0, 178, 10, 127, 0, 255, 47, 0],
            [0, 179, 10, 127, 0, 255, 47, 0]])
        [(0, 0, .SetTempo 10000), (0, 0, .ProgramChange 0 0),
          (1, 0, .ProgramChange 1 74), (0, 0, .ControlChange 0 10 1),
          (1, 0, .ControlChange 1 10 1), (2, 0, .ControlChange 2 10 127),
          (3, 0, .ControlChange 3 10 127), (0, 0, .EndOfTrack), (1, 0, .EndOfTrack),
          (2, 0, .EndOfTrack), (3, 0, .EndOfTrack)]
        [0, 0, 0, 0] 0).smf.tracks.getD 3 [] =
        [0x00, 0xB3, 0x0A, 0x7F, 0x00, 0xFF, 0x2F, 0x00] ∧
      (EncSt.mk
        (MidiWriterRaw.mk 1
          [[0, 255, 81, 3, 0, 39, 16, 0, 192, 0, 0, 176, 10, 1, 0, 255, 47, 0],
            [0, 193, 74, 0, 177, 10, 1, 0, 255, 47, 0],
            [0, 178, 10, 127, 0, 255, 47, 0],
            [0, 179, 10, 127, 0, 255, 47, 0]])
        [(0, 0, .SetTempo 10000), (0, 0, .ProgramChange 0 0),
          (1, 0, .ProgramChange 1 74), (0, 0, .ControlChange 0 10 1),
          (1, 0, .ControlChange 1 10 1), (2, 0, .ControlChange 2 10 127),
          (3, 0, .ControlChange 3 10 127), (0, 0, .EndOfTrack), (1, 0, .EndOfTrack),
          (2, 0, .EndOfTrack), (3, 0, .EndOfTrack)]
        [0, 0, 0, 0] 0).pushes.filter (fun x => decide (2 ≤ x.1)) =
        [(2, 0, .ControlChange 2 10 127), (3, 0, .ControlChange 3 10 127),
          (2, 0, .EndOfTrack), (3, 0, .EndOfTrack)] :=
  mono_lanes_two_three [[]] 100 _ 0 rfl rfl

/-! ### Claim C1: the two-sample mono example -/

/-- C1 (counterexample): on mono input `[1000, -1000]` at fs = 100 the
encoder does not return a note count at all — it raises
`ZeroDivisionError` (total_samples // 20 == 0 in the progress guard). -/
theorem sample_pair_counterexample :
    encOk (gen_midi_from_pcm [[(1000 : Int), -1000]] MidiWriterRaw.init 100) = none ∧
      encErr (gen_midi_from_pcm [[(1000 : Int), -1000]] MidiWriterRaw.init 100) =
        some "ZeroDivisionError" :=
  ⟨rfl, rfl⟩

set_option maxHeartbeats 2000000 in
/-- C1 (amended): on mono `[1000, -1000]` at fs = 100 the encoder computes
velocity 22 for sample 0 (`amp2vel 1000 = (22, lane 0)`), pushes its NoteOn
at delta 0 and NoteOff at delta 1 on lane 0, and then raises
`ZeroDivisionError` in the progress guard at the end of the first sample's
body: sample 1 (which would give velocity 22 on lane 1) is never processed
and no note count is returned. -/
theorem sample_pair_amended :
    amp2vel 1000 false = (22, 0) ∧ amp2vel (-1000) false = (22, 1) ∧
      gen_midi_from_pcm [[(1000 : Int), -1000]] MidiWriterRaw.init 100 =
        .error ("ZeroDivisionError", EncSt.mk
          (MidiWriterRaw.mk 1
            [[0, 255, 81, 3, 0, 39, 16, 0, 192, 0, 0, 176, 10, 1, 0, 144, 60, 22,
                1, 128, 60, 22],
              [0, 193, 74, 0, 177, 10, 1], [0, 178, 10, 127], [0, 179, 10, 127]])
          [(0, 0, .SetTempo 10000), (0, 0, .ProgramChange 0 0), (1, 0, .ProgramChange 1 74),
            (0, 0, .ControlChange 0 10 1), (1, 0, .ControlChange 1 10 1),
            (2, 0, .ControlChange 2 10 127), (3, 0, .ControlChange 3 10 127),
            (0, 0, .NoteOn 0 60 22), (0, 1, .NoteOff 0 60 22)]
          [0, 1, 1, 1] 1) :=
  ⟨rfl, rfl, rfl⟩

/-! ### Claim C10: a counted note whose NoteOn byte is velocity zero -/

set_option maxHeartbeats 2000000 in
/-- C10: the sample value 33100 yields velocity
`round(sqrt(33100 · 127²/32768)) = 128 ≠ 0`, so the encoder counts the note
and pushes a NoteOn/NoteOff pair — but the encoded NoteOn is
`[0x90, 0x3C, 0x00]`: its velocity byte is `128 &&& 0x7F = 0`.  Shown on a
20-sample mono input whose first sample is 33100 (note count 1). -/
theorem counted_note_zero_velocity :
    amp2vel 33100 false = (128, 0) ∧ (128 : Nat) ≠ 0 ∧
      (MIDIEvent.NoteOn 0 60 128).as_bytes = [0x90, 0x3C, 0x00] ∧
      (match encOk (gen_midi_from_pcm
          [[(33100 : Int), 0, 0, 0, 0, 0, 0, 0, 0, 0, 0, 0, 0, 0, 0, 0, 0, 0, 0, 0]]
          MidiWriterRaw.init 100) with
        | some (st, n) => n = 1 ∧ (0, 0, MIDIEvent.NoteOn 0 60 128) ∈ st.pushes ∧
            (0, 1, MIDIEvent.NoteOff 0 60 128) ∈ st.pushes
        | none => False) := by
  refine ⟨rfl, by decide, rfl, ?_⟩
  exact ⟨rfl, by decide, by decide⟩
